import Mathlib

/-!
Verification of the staged-upload file lifecycle manager: the Temp Reaper
(`MulterManager.clearTemp` / `MulterManager._clearTemp`), the constructor
default durations, the upload middleware's field-name collapsing, and the
owning-entity binding (`PostSchema.methods.addFile`, `removeFileById`,
`deleteAllFiles`), shallowly embedded from the JavaScript source.
-/

namespace FileLifecycle

/-! ## Temp Reaper: `clearTemp` / `_clearTemp`

A staging-area entry is a filesystem entry of `tmpDir`: a name, whether it
is a directory (`stats.isDirectory()`), and its creation time in
milliseconds (`stats.birthtimeMs`).  Times are integers (millisecond
clock readings). -/

structure TmpEntry where
  name : String
  isDir : Bool
  birthtimeMs : Int
deriving DecidableEq, Repr

/-- `const expired = date - stats.birthtimeMs >= this.clearTmpTime;` -/
def entryExpired (date clearTmpTime : Int) (e : TmpEntry) : Bool :=
  decide (date - e.birthtimeMs ≥ clearTmpTime)

/-- An entry is removed by the sweep iff it is a directory and
`force || expired` holds (`if(stats.isDirectory())` guarding
`if(force || expired) await fs.promises.rm(filepath, ...)`). -/
def entryDeleted (force : Bool) (date clearTmpTime : Int) (e : TmpEntry) : Bool :=
  e.isDir && (force || entryExpired date clearTmpTime e)

/-- One sweep of the Staging Area: the entries that remain in `tmpDir`
after `clearTemp({ force })` ran at clock reading `date`. -/
def clearTemp (force : Bool) (date clearTmpTime : Int) (tmpDir : List TmpEntry) :
    List TmpEntry :=
  tmpDir.filter (fun e => ! entryDeleted force date clearTmpTime e)

/-! ## Constructor defaults

`opts.clearTmpTime || default` in JavaScript falls back to the default
when the option is absent or `0` (falsy). -/

def jsOrNat (o : Option Nat) (d : Nat) : Nat :=
  match o with
  | none => d
  | some v => if v = 0 then d else v

structure MMOpts where
  clearTmpTime : Option Nat
  clearTmpIntervalTime : Option Nat
deriving DecidableEq, Repr

structure MMConfig where
  clearTmpTime : Nat
  clearTmpIntervalTime : Nat
deriving DecidableEq, Repr

/-- Constructor of `src/Node/NodeJWT/fileupload/multer-manager.js`:
`this.clearTmpTime = opts.clearTmpTime || 1000 * 5; // 5 hours` and
`this.clearTmpIntervalTime = opts.clearTmpIntervalTime || 1000; // 1 minute`. -/
def nodeJWTConstructor (opts : MMOpts) : MMConfig :=
  { clearTmpTime := jsOrNat opts.clearTmpTime (1000 * 5),
    clearTmpIntervalTime := jsOrNat opts.clearTmpIntervalTime 1000 }

/-- Constructor of the `MulterManager` in `src/unnamed/part_001`:
`this.#clearTmpTime = opts.clearTmpTime || 1000 * 60 * 60 * 5; // 5 hours` and
`this.#clearTmpIntervalTime = opts.clearTmpIntervalTime || 1000 * 60 * 10; // 10 minute`. -/
def multerManagerConstructor (opts : MMOpts) : MMConfig :=
  { clearTmpTime := jsOrNat opts.clearTmpTime (1000 * 60 * 60 * 5),
    clearTmpIntervalTime := jsOrNat opts.clearTmpIntervalTime (1000 * 60 * 10) }

/-! ## Middleware: collapsing `req.files` into a field-name-keyed object

`MulterManager.middleware` (src/unnamed/part_001) wraps the uploader and
then runs
`const files = {}; req.files.map(file => { files[file.fieldname] = file; })`.
A JavaScript object with string keys is modelled as an association list:
assigning to an existing key replaces its value in place, assigning to a
new key appends it. -/

structure MulterFile where
  fieldname : String
  originalname : String
deriving DecidableEq, Repr

/-- JavaScript object assignment `m[k] = v` for string keys. -/
def objSet : List (String × MulterFile) → String → MulterFile → List (String × MulterFile)
  | [], k, v => [(k, v)]
  | (k', v') :: rest, k, v =>
    if k' = k then (k, v) :: rest else (k', v') :: objSet rest k v

/-- JavaScript object read `m[k]` for string keys. -/
def objGet : List (String × MulterFile) → String → Option MulterFile
  | [], _ => none
  | (k', v') :: rest, k => if k' = k then some v' else objGet rest k

/-- `const files = {}; req.files.map(file => { files[file.fieldname] = file; })` -/
def collapseFiles (files : List MulterFile) : List (String × MulterFile) :=
  files.foldl (fun m f => objSet m f.fieldname f) []

/-! ## Owning-Entity Binding: `PostSchema.methods` (src/unnamed/part_000)

The Post methods delegate to `FileModel.createAndMove` and
`FileModel.deleteAndRemoveById`; those collaborators are passed in as
functions over an abstract external state `σ` (the file records and the
stores).  An `async` call either resolves to a value or rejects with a
thrown error, modelled by `Outcome`. -/

abbrev FileId := Nat

inductive JStatus where
  | success
  | fail
deriving DecidableEq, Repr

structure Post where
  files : List FileId
deriving DecidableEq, Repr

inductive Outcome (α : Type) where
  | ok : α → Outcome α
  | thrown : String → Outcome α
deriving DecidableEq, Repr

/-- Result shape of `FileModel.deleteAndRemoveById`: `{status, model, message}`
(the `model` payload is not inspected by the Post methods beyond forwarding). -/
structure DRResult where
  status : JStatus
  message : Option String
deriving DecidableEq, Repr

/-- Result shape of `FileModel.createAndMove`: `{status, model, message}`;
on success `res.model.id` is read. -/
structure CAMResult where
  status : JStatus
  modelId : Option FileId
  message : Option String
deriving DecidableEq, Repr

/-- Result shape returned by the Post methods: `{status, message}`. -/
structure OpResult where
  status : JStatus
  message : Option String
deriving DecidableEq, Repr

/-- `` `Not found file of post with id ${id}` `` -/
def notFoundMsg (id : FileId) : String :=
  "Not found file of post with id " ++ toString id

/-- `PostSchema.methods.addFile`: awaits `FileModel.createAndMove`, and when
`res.status === 'success'` pushes `res.model.id` onto `this.files`; otherwise
the sequence is untouched.  `res` itself is returned.  Reading `.id` of an
absent `res.model` would raise a TypeError (a rejected promise). -/
def addFile {σ : Type} (createAndMove : σ → Outcome (CAMResult × σ)) (p : Post) (s : σ) :
    Outcome (CAMResult × Post × σ) :=
  match createAndMove s with
  | .thrown m => .thrown m
  | .ok (res, s') =>
    if res.status = .success then
      match res.modelId with
      | some fid => .ok (res, { p with files := p.files ++ [fid] }, s')
      | none => .thrown "TypeError: Cannot read properties of undefined"
    else
      .ok (res, p, s')

/-- `PostSchema.methods.removeFileById`: rejects ids absent from
`this.files`; otherwise awaits `FileModel.deleteAndRemoveById`; on `'fail'`
forwards the failure leaving `this.files` untouched; on success removes the
id by `this.files.splice(this.files.indexOf(id), 1)`. -/
def removeFileById {σ : Type} (deleteAndRemoveById : FileId → σ → Outcome (DRResult × σ))
    (p : Post) (s : σ) (id : FileId) : Outcome (OpResult × Post × σ) :=
  if id ∉ p.files then
    .ok ({ status := .fail, message := some (notFoundMsg id) }, p, s)
  else
    match deleteAndRemoveById id s with
    | .thrown m => .thrown m
    | .ok (r, s') =>
      if r.status = .fail then
        .ok ({ status := .fail, message := r.message }, p, s')
      else
        .ok ({ status := .success, message := none },
             { p with files := p.files.eraseIdx (p.files.indexOf id) }, s')

/-- Sequential unfolding of
`await Promise.all(this.files.map(async id => await this.removeFileById(id)))`:
the snapshot of ids is processed in order, threading the post and the external
state; the first rejected removal rejects the whole conjunction. -/
def deleteAllFilesAux {σ : Type} (dr : FileId → σ → Outcome (DRResult × σ)) :
    Post → σ → List FileId → Option String × Post × σ
  | p, s, [] => (none, p, s)
  | p, s, id :: rest =>
    match removeFileById dr p s id with
    | .thrown m => (some m, p, s)
    | .ok (_, p', s') => deleteAllFilesAux dr p' s' rest

/-- `PostSchema.methods.deleteAllFiles`: `try { await Promise.all(...); return
{status:'success'} } catch (e) { return {status:'fail', message: e.message} }`. -/
def deleteAllFiles {σ : Type} (dr : FileId → σ → Outcome (DRResult × σ))
    (p : Post) (s : σ) : OpResult × Post × σ :=
  match deleteAllFilesAux dr p s p.files with
  | (none, p', s') => ({ status := .success, message := none }, p', s')
  | (some m, p', s') => ({ status := .fail, message := some m }, p', s')

/-! ## Spec-modelled Commit Protocol (`FileModel`)

`FileModel` (`createAndMove`, `deleteAndRemoveById`) is not part of the
source tree; only its callers are.  The round-trip claim about the
Permanent Store needs it, so it is modelled from the spec over an explicit
store state. -/

structure FileRecord where
  id : FileId
  dstPath : String
deriving DecidableEq, Repr

/-- The persistent side: the FileRecords and the set of paths holding bytes
in the Permanent Store. -/
structure Store where
  records : List FileRecord
  perm : List String
deriving DecidableEq, Repr

/-- Modelled from the spec: `FileModel.createAndMove` is not under `src/`.
Per §4.3, a successful commit allocates a FileRecord with a fresh
identifier and a destination path in the Permanent Store, moves the bytes
there, persists the record and returns it (`{status:'success', model}`). -/
def specCreateAndMove (fid : FileId) (dstPath : String) (s : Store) :
    Outcome (CAMResult × Store) :=
  .ok ({ status := .success, modelId := some fid, message := none },
       { records := s.records ++ [⟨fid, dstPath⟩], perm := s.perm ++ [dstPath] })

/-- Modelled from the spec: `FileModel.deleteAndRemoveById` is not under
`src/`.  Per §4.3's deletion mirror, it looks up the FileRecord, deletes
the Permanent Store bytes, then deletes the record; a missing record
yields `fail` with a not-found message. -/
def specDeleteAndRemoveById (id : FileId) (s : Store) : Outcome (DRResult × Store) :=
  match s.records.find? (fun r => r.id = id) with
  | none => .ok ({ status := .fail, message := some ("File not found: " ++ toString id) }, s)
  | some r =>
    .ok ({ status := .success, message := none },
         { records := s.records.filter (fun q => q.id ≠ id),
           perm := s.perm.erase r.dstPath })

/-! ## Helper lemmas -/

theorem objGet_objSet_self (m : List (String × MulterFile)) (k : String) (v : MulterFile) :
    objGet (objSet m k v) k = some v := by
  induction m with
  | nil => simp [objSet, objGet]
  | cons p rest ih =>
    obtain ⟨k', v'⟩ := p
    by_cases h : k' = k
    · subst h
      simp [objSet, objGet]
    · simp [objSet, objGet, h, ih]

theorem objGet_objSet_ne (m : List (String × MulterFile)) (k k' : String) (v : MulterFile)
    (h : k ≠ k') : objGet (objSet m k' v) k = objGet m k := by
  induction m with
  | nil => simp [objSet, objGet, Ne.symm h]
  | cons p rest ih =>
    obtain ⟨k'', v''⟩ := p
    by_cases h2 : k'' = k'
    · subst h2
      simp [objSet, objGet, Ne.symm h]
    · simp [objSet, objGet, h2, ih]

theorem collapse_foldl_lookup (files : List MulterFile) (acc : List (String × MulterFile))
    (k : String) :
    objGet (files.foldl (fun m f => objSet m f.fieldname f) acc) k =
      match (files.filter (fun f => f.fieldname = k)).getLast? with
      | some f => some f
      | none => objGet acc k := by
  induction files using List.reverseRecOn with
  | nil => simp
  | append_singleton ys f ih =>
    rw [List.foldl_append]
    simp only [List.foldl_cons, List.foldl_nil]
    by_cases h : f.fieldname = k
    · rw [h, objGet_objSet_self]
      rw [List.filter_append]
      simp [h, List.getLast?_concat]
    · rw [objGet_objSet_ne _ _ _ _ (Ne.symm h), ih]
      rw [List.filter_append]
      simp [h]

/-! ## Claims about the Temp Reaper and the middleware -/

/-- Claim C1: for every directory entry of the Staging Area, a non-forced
sweep deletes the entry exactly when its age at sweep time (`date`
minus `birthtimeMs`) has reached `clearTmpTime`; every younger entry
survives the sweep unchanged. -/
theorem C1_clearTemp_nonforced (date clearTmpTime : Int) (tmp : List TmpEntry) (e : TmpEntry)
    (hdir : e.isDir = true) (hmem : e ∈ tmp) :
    (clearTmpTime ≤ date - e.birthtimeMs → e ∉ clearTemp false date clearTmpTime tmp) ∧
    (date - e.birthtimeMs < clearTmpTime → e ∈ clearTemp false date clearTmpTime tmp) := by
  constructor
  · intro hage hin
    have hkeep := (List.mem_filter.mp hin).2
    simp [entryDeleted, entryExpired, hdir] at hkeep
    omega
  · intro hage
    refine List.mem_filter.mpr ⟨hmem, ?_⟩
    simp [entryDeleted, entryExpired, hdir]
    omega

theorem C1_clearTemp_nonforced_witness :
    (⟨"old", true, 0⟩ : TmpEntry) ∉
      clearTemp false 10000 5000 [⟨"old", true, 0⟩, ⟨"young", true, 8000⟩] ∧
    (⟨"young", true, 8000⟩ : TmpEntry) ∈
      clearTemp false 10000 5000 [⟨"old", true, 0⟩, ⟨"young", true, 8000⟩] :=
  ⟨(C1_clearTemp_nonforced 10000 5000 _ ⟨"old", true, 0⟩ rfl (by decide)).1 (by decide),
   (C1_clearTemp_nonforced 10000 5000 _ ⟨"young", true, 8000⟩ rfl (by decide)).2 (by decide)⟩

/-- Claim C2: a forced sweep deletes every (directory) entry present in the
Staging Area, regardless of the entry's age. -/
theorem C2_clearTemp_forced (date clearTmpTime : Int) (tmp : List TmpEntry) (e : TmpEntry)
    (hdir : e.isDir = true) (hmem : e ∈ tmp) :
    e ∉ clearTemp true date clearTmpTime tmp := by
  intro hin
  have hkeep := (List.mem_filter.mp hin).2
  simp [entryDeleted, hdir] at hkeep

theorem C2_clearTemp_forced_witness :
    (⟨"fresh", true, 999999⟩ : TmpEntry) ∉
      clearTemp true 1000000 5000 [⟨"fresh", true, 999999⟩] :=
  C2_clearTemp_forced 1000000 5000 _ ⟨"fresh", true, 999999⟩ rfl (by decide)

/-- Claim C9: evaluation of the constructor defaults.  The
`src/unnamed/part_001` constructor defaults to 5 hours expiry and a
10-minute sweep period as claimed, but the
`src/Node/NodeJWT/fileupload/multer-manager.js` constructor defaults to
`1000 * 5` ms (5 seconds) expiry and `1000` ms (1 second) sweep period,
contradicting both the claim and that file's own comments
(`// 5 hours`, `// 1 minute`). -/
theorem C9_default_durations :
    (nodeJWTConstructor ⟨none, none⟩).clearTmpTime = 1000 * 5 ∧
    (nodeJWTConstructor ⟨none, none⟩).clearTmpIntervalTime = 1000 ∧
    (multerManagerConstructor ⟨none, none⟩).clearTmpTime = 1000 * 60 * 60 * 5 ∧
    (multerManagerConstructor ⟨none, none⟩).clearTmpIntervalTime = 1000 * 60 * 10 :=
  ⟨rfl, rfl, rfl, rfl⟩

/-- Claim C10: with `fields` absent the middleware collapses the uploaded
files into a mapping keyed by field name; when several files share a field
name the mapping keeps the last file's descriptor (last-write-wins). -/
theorem C10_middleware_lastWriteWins (files : List MulterFile) (k : String) :
    objGet (collapseFiles files) k = (files.filter (fun f => f.fieldname = k)).getLast? := by
  rw [collapseFiles, collapse_foldl_lookup]
  cases (files.filter (fun f => f.fieldname = k)).getLast? <;> simp [objGet]

/-- Splitting a list at the first index of a member: the prefix before
`indexOf` is free of the element, the element sits at that index, and
`eraseIdx` at that index drops exactly it. -/
theorem files_decomp (id : FileId) (l : List FileId) (h : id ∈ l) :
    l = l.take (l.indexOf id) ++ id :: l.drop (l.indexOf id + 1) ∧
    id ∉ l.take (l.indexOf id) ∧
    l.eraseIdx (l.indexOf id) = l.take (l.indexOf id) ++ l.drop (l.indexOf id + 1) := by
  induction l with
  | nil => cases h
  | cons a t ih =>
    by_cases ha : a = id
    · subst ha
      simp [List.indexOf_cons_self]
    · have h' : id ∈ t := by
        rcases List.mem_cons.mp h with h0 | h0
        · exact absurd h0.symm ha
        · exact h0
      have hidx : (a :: t).indexOf id = t.indexOf id + 1 := List.indexOf_cons_ne t ha
      obtain ⟨e1, e2, e3⟩ := ih h'
      refine ⟨?_, ?_, ?_⟩
      · rw [hidx, List.take_succ_cons, List.drop_succ_cons]
        exact congrArg (a :: ·) e1
      · rw [hidx, List.take_succ_cons]
        simp only [List.mem_cons, not_or]
        exact ⟨Ne.symm ha, e2⟩
      · rw [hidx, List.take_succ_cons, List.drop_succ_cons, List.eraseIdx_cons_succ]
        exact congrArg (a :: ·) e3

/-- Claim C6: when `fileId` is present in the owner's `files`, a successful
`deleteAndRemove` makes `removeFileById` drop exactly the first occurrence
of the id at its index (the files split as prefix ++ id :: suffix with the
prefix id-free, and the result is prefix ++ suffix, order preserved); a
failed `deleteAndRemove` leaves the files sequence completely untouched. -/
theorem C6_removeFileById_present {σ : Type} (dr : FileId → σ → Outcome (DRResult × σ))
    (p : Post) (s : σ) (id : FileId) (hmem : id ∈ p.files)
    (r : DRResult) (s' : σ) (hdr : dr id s = .ok (r, s')) :
    (r.status = .success →
      p.files = p.files.take (p.files.indexOf id) ++
        id :: p.files.drop (p.files.indexOf id + 1) ∧
      id ∉ p.files.take (p.files.indexOf id) ∧
      removeFileById dr p s id =
        .ok ({ status := .success, message := none },
             ⟨p.files.take (p.files.indexOf id) ++ p.files.drop (p.files.indexOf id + 1)⟩,
             s')) ∧
    (r.status = .fail →
      removeFileById dr p s id = .ok ({ status := .fail, message := r.message }, p, s')) := by
  obtain ⟨e1, e2, e3⟩ := files_decomp id p.files hmem
  constructor
  · intro hsucc
    refine ⟨e1, e2, ?_⟩
    simp [removeFileById, hmem, hdr, hsucc, e3]
  · intro hfail
    simp [removeFileById, hmem, hdr, hfail]

theorem C6_removeFileById_present_witness :
    ([4, 7, 9] : List FileId) = [4, 7, 9].take ([4, 7, 9].indexOf 7) ++
      7 :: [4, 7, 9].drop ([4, 7, 9].indexOf 7 + 1) ∧
    (7 : FileId) ∉ ([4, 7, 9] : List FileId).take ([4, 7, 9].indexOf 7) ∧
    removeFileById (fun _ (s : Unit) => .ok (⟨.success, none⟩, s)) ⟨[4, 7, 9]⟩ () 7 =
      .ok ({ status := .success, message := none },
           ⟨([4, 7, 9] : List FileId).take ([4, 7, 9].indexOf 7) ++
             ([4, 7, 9] : List FileId).drop ([4, 7, 9].indexOf 7 + 1)⟩, ()) :=
  (C6_removeFileById_present (fun _ (s : Unit) => .ok (⟨.success, none⟩, s)) ⟨[4, 7, 9]⟩ () 7
    (by decide) ⟨.success, none⟩ () rfl).1 rfl

/-- Claim C7: for an id absent from the owner's `files`, `removeFileById`
returns `fail` with the not-found message, and nothing is touched: the
files sequence and the external state (records and stores) are returned
unchanged, whatever the `deleteAndRemoveById` collaborator would do (it is
never invoked). -/
theorem C7_removeFileById_absent {σ : Type} (dr : FileId → σ → Outcome (DRResult × σ))
    (p : Post) (s : σ) (id : FileId) (h : id ∉ p.files) :
    removeFileById dr p s id =
      .ok ({ status := .fail, message := some (notFoundMsg id) }, p, s) := by
  simp [removeFileById, h]

theorem C7_removeFileById_absent_witness :
    removeFileById (fun _ (s : Unit) => .ok (⟨.success, none⟩, s)) ⟨[1, 2]⟩ () 5 =
      .ok ({ status := .fail, message := some (notFoundMsg 5) }, ⟨[1, 2]⟩, ()) :=
  C7_removeFileById_absent (fun _ (s : Unit) => .ok (⟨.success, none⟩, s)) ⟨[1, 2]⟩ () 5
    (by decide)

/-- Claim C8: when the delegated `createAndMove` resolves without success,
`addFile` leaves the owner's `files` sequence untouched and returns the
failure result itself to the caller. -/
theorem C8_addFile_fail {σ : Type} (cam : σ → Outcome (CAMResult × σ)) (p : Post) (s : σ)
    (res : CAMResult) (s' : σ) (hcam : cam s = .ok (res, s'))
    (hfail : res.status ≠ .success) :
    addFile cam p s = .ok (res, p, s') := by
  simp [addFile, hcam, hfail]

theorem C8_addFile_fail_witness :
    addFile (fun (s : Unit) => .ok (⟨.fail, none, some "move failed"⟩, s)) ⟨[3]⟩ () =
      .ok (⟨.fail, none, some "move failed"⟩, ⟨[3]⟩, ()) :=
  C8_addFile_fail (fun (s : Unit) => .ok (⟨.fail, none, some "move failed"⟩, s)) ⟨[3]⟩ ()
    ⟨.fail, none, some "move failed"⟩ () rfl (by decide)

/-- Processing a snapshot prefix that finishes without a rejection continues
on the remainder from the accumulated post and state. -/
theorem deleteAllFilesAux_append {σ : Type} (dr : FileId → σ → Outcome (DRResult × σ))
    (pre rest : List FileId) :
    ∀ (p : Post) (s : σ) (p1 : Post) (s1 : σ),
      deleteAllFilesAux dr p s pre = (none, p1, s1) →
      deleteAllFilesAux dr p s (pre ++ rest) = deleteAllFilesAux dr p1 s1 rest := by
  induction pre with
  | nil =>
    intro p s p1 s1 h
    simp only [deleteAllFilesAux, Prod.mk.injEq] at h
    rw [List.nil_append, h.2.1, h.2.2]
  | cons id tl ih =>
    intro p s p1 s1 h
    simp only [deleteAllFilesAux, List.cons_append] at h ⊢
    cases hrem : removeFileById dr p s id with
    | thrown m =>
      rw [hrem] at h
      simp at h
    | ok out =>
      obtain ⟨r, p', s'⟩ := out
      rw [hrem] at h
      exact ih p' s' p1 s1 h

/-- If the delegated `deleteAndRemoveById` resolves (does not reject),
`removeFileById` resolves as well. -/
theorem removeFileById_ok {σ : Type} (dr : FileId → σ → Outcome (DRResult × σ))
    (p : Post) (s : σ) (id : FileId) (h : ∃ rs, dr id s = .ok rs) :
    ∃ out, removeFileById dr p s id = .ok out := by
  obtain ⟨⟨r, s'⟩, hdr⟩ := h
  by_cases hmem : id ∈ p.files
  · by_cases hf : r.status = .fail
    · exact ⟨({ status := .fail, message := r.message }, p, s'),
        by simp [removeFileById, hmem, hdr, hf]⟩
    · exact ⟨({ status := .success, message := none }, ⟨p.files.erase id⟩, s'),
        by simp [removeFileById, hmem, hdr, hf]⟩
  · exact ⟨({ status := .fail, message := some (notFoundMsg id) }, p, s),
      by simp [removeFileById, hmem]⟩

/-- If no delegated removal ever rejects, the `Promise.all` conjunction
resolves. -/
theorem deleteAllFilesAux_none {σ : Type} (dr : FileId → σ → Outcome (DRResult × σ))
    (hok : ∀ id s0, ∃ rs, dr id s0 = .ok rs) :
    ∀ (l : List FileId) (p : Post) (s : σ), (deleteAllFilesAux dr p s l).1 = none := by
  intro l
  induction l with
  | nil =>
    intro p s
    simp [deleteAllFilesAux]
  | cons id tl ih =>
    intro p s
    obtain ⟨⟨res, p', s'⟩, hrem⟩ := removeFileById_ok dr p s id (hok id s)
    simp [deleteAllFilesAux, hrem, ih]

/-- An id whose delegated removal always reports `fail` survives any single
`removeFileById` step. -/
theorem removeFileById_preserves_mem {σ : Type} (dr : FileId → σ → Outcome (DRResult × σ))
    (p : Post) (s : σ) (id id' : FileId)
    (hfailAll : ∀ s0 r s1, dr id s0 = .ok (r, s1) → r.status = .fail)
    (hmem : id ∈ p.files) (res : OpResult) (p' : Post) (s' : σ)
    (hrem : removeFileById dr p s id' = .ok (res, p', s')) :
    id ∈ p'.files := by
  by_cases hmem' : id' ∈ p.files
  · cases hdr : dr id' s with
    | thrown m =>
      simp [removeFileById, hmem', hdr] at hrem
    | ok rs =>
      obtain ⟨r, s2⟩ := rs
      by_cases hf : r.status = .fail
      · simp [removeFileById, hmem', hdr, hf] at hrem
        rw [← hrem.2.1]
        exact hmem
      · by_cases hid : id' = id
        · subst hid
          exact absurd (hfailAll s r s2 hdr) hf
        · simp [removeFileById, hmem', hdr, hf] at hrem
          rw [← hrem.2.1]
          simp only [List.eraseIdx_indexOf_eq_erase]
          exact (List.mem_erase_of_ne (fun h => hid h.symm)).mpr hmem
  · simp [removeFileById, hmem'] at hrem
    rw [← hrem.2.1]
    exact hmem

/-- An id whose delegated removal always reports `fail` survives the whole
sweep of the snapshot. -/
theorem deleteAllFilesAux_preserves_mem {σ : Type} (dr : FileId → σ → Outcome (DRResult × σ))
    (id : FileId) (hfailAll : ∀ s0 r s1, dr id s0 = .ok (r, s1) → r.status = .fail) :
    ∀ (l : List FileId) (p : Post) (s : σ), id ∈ p.files →
      id ∈ (deleteAllFilesAux dr p s l).2.1.files := by
  intro l
  induction l with
  | nil =>
    intro p s h
    simpa [deleteAllFilesAux] using h
  | cons id' tl ih =>
    intro p s h
    cases hrem : removeFileById dr p s id' with
    | thrown m =>
      simpa [deleteAllFilesAux, hrem] using h
    | ok out =>
      obtain ⟨res, p', s'⟩ := out
      have hkeep := removeFileById_preserves_mem dr p s id id' hfailAll h res p' s' hrem
      simpa [deleteAllFilesAux, hrem] using ih p' s' hkeep

/-- Claim C3: when the removal of one file rejects during `deleteAllFiles`
(the preceding ids of the snapshot having been processed without
rejection), the whole operation reports `fail` carrying exactly the thrown
error's message, and there is no rollback: the post and the external state
are left exactly as the already-performed removals put them. -/
theorem C3_deleteAllFiles_throw {σ : Type} (dr : FileId → σ → Outcome (DRResult × σ))
    (p : Post) (s : σ) (pre post : List FileId) (k : FileId)
    (hsplit : p.files = pre ++ k :: post)
    (p1 : Post) (s1 : σ) (hpre : deleteAllFilesAux dr p s pre = (none, p1, s1))
    (m : String) (hthrow : removeFileById dr p1 s1 k = .thrown m) :
    deleteAllFiles dr p s = ({ status := .fail, message := some m }, p1, s1) := by
  rw [deleteAllFiles, hsplit,
    deleteAllFilesAux_append dr pre (k :: post) p s p1 s1 hpre]
  simp [deleteAllFilesAux, hthrow]

theorem C3_deleteAllFiles_throw_witness :
    deleteAllFiles
        (fun id (s : Unit) =>
          if id = 2 then .thrown "boom" else .ok (⟨.success, none⟩, s))
        ⟨[1, 2, 3]⟩ () =
      ({ status := .fail, message := some "boom" }, ⟨[2, 3]⟩, ()) :=
  C3_deleteAllFiles_throw
    (fun id (s : Unit) => if id = 2 then .thrown "boom" else .ok (⟨.success, none⟩, s))
    ⟨[1, 2, 3]⟩ () [1] [3] 2 rfl ⟨[2, 3]⟩ () (by decide) "boom" (by decide)

/-- Claim C4: when no delegated removal rejects, `deleteAllFiles` reports
`success` with no message — even if individual removals reported `fail` —
and every id whose removal reports `fail` is still in the owner's `files`
sequence afterwards, unreported. -/
theorem C4_deleteAllFiles_noThrow {σ : Type} (dr : FileId → σ → Outcome (DRResult × σ))
    (p : Post) (s : σ) (hok : ∀ id s0, ∃ rs, dr id s0 = .ok rs) :
    (deleteAllFiles dr p s).1 = { status := .success, message := none } ∧
    ∀ id ∈ p.files, (∀ s0 r s1, dr id s0 = .ok (r, s1) → r.status = .fail) →
      id ∈ (deleteAllFiles dr p s).2.1.files := by
  have hnone := deleteAllFilesAux_none dr hok p.files p s
  rcases haux : deleteAllFilesAux dr p s p.files with ⟨o, p', s'⟩
  rw [haux] at hnone
  simp only at hnone
  subst hnone
  constructor
  · simp [deleteAllFiles, haux]
  · intro id hid hfailAll
    have := deleteAllFilesAux_preserves_mem dr id hfailAll p.files p s hid
    rw [haux] at this
    simpa [deleteAllFiles, haux] using this

theorem C4_deleteAllFiles_noThrow_witness :
    (deleteAllFiles
        (fun id (s : Unit) => .ok (⟨if id = 2 then .fail else .success, none⟩, s))
        ⟨[1, 2]⟩ ()).1 = { status := .success, message := none } ∧
    2 ∈ (deleteAllFiles
        (fun id (s : Unit) => .ok (⟨if id = 2 then .fail else .success, none⟩, s))
        ⟨[1, 2]⟩ ()).2.1.files :=
  ⟨(C4_deleteAllFiles_noThrow
      (fun id (s : Unit) => .ok (⟨if id = 2 then .fail else .success, none⟩, s))
      ⟨[1, 2]⟩ () (fun id s0 => ⟨_, rfl⟩)).1,
   (C4_deleteAllFiles_noThrow
      (fun id (s : Unit) => .ok (⟨if id = 2 then .fail else .success, none⟩, s))
      ⟨[1, 2]⟩ () (fun id s0 => ⟨_, rfl⟩)).2 2 (by decide)
      (by
        intro s0 r s1 h
        simp only [Outcome.ok.injEq, Prod.mk.injEq] at h
        rw [← h.1]
        simp)⟩

/-- Claim C5: a successful `addFile` followed by `removeFileById` on the id
it returned restores the owner's `files` sequence exactly and restores the
store exactly: the FileRecord is gone again and the Permanent Store file
created by the `addFile` is gone. -/
theorem C5_addFile_remove_roundTrip (p : Post) (s : Store) (fid : FileId)
    (dstPath : String) (hfid_files : fid ∉ p.files)
    (hfid_rec : ∀ r ∈ s.records, r.id ≠ fid) (hdst : dstPath ∉ s.perm) :
    addFile (specCreateAndMove fid dstPath) p s =
      .ok ({ status := .success, modelId := some fid, message := none },
           ⟨p.files ++ [fid]⟩,
           ⟨s.records ++ [⟨fid, dstPath⟩], s.perm ++ [dstPath]⟩) ∧
    removeFileById specDeleteAndRemoveById ⟨p.files ++ [fid]⟩
        ⟨s.records ++ [⟨fid, dstPath⟩], s.perm ++ [dstPath]⟩ fid =
      .ok ({ status := .success, message := none }, p, s) ∧
    dstPath ∉ s.perm := by
  refine ⟨?_, ?_, hdst⟩
  · simp [addFile, specCreateAndMove]
  · have hmem : fid ∈ p.files ++ [fid] := List.mem_append_right _ (List.mem_singleton.mpr rfl)
    have hfind : (s.records ++ [(⟨fid, dstPath⟩ : FileRecord)]).find?
        (fun r => r.id = fid) = some ⟨fid, dstPath⟩ := by
      rw [List.find?_append]
      have h1 : s.records.find? (fun r => r.id = fid) = none := by
        rw [List.find?_eq_none]
        intro r hr
        simpa using hfid_rec r hr
      rw [h1]
      simp [List.find?_cons]
    have hrecs : s.records.filter (fun q => !decide (q.id = fid)) = s.records :=
      List.filter_eq_self.mpr (fun r hr => by simpa using hfid_rec r hr)
    have hperm : (s.perm ++ [dstPath]).erase dstPath = s.perm := by
      rw [List.erase_append_right _ hdst, List.erase_cons_head]
      simp
    have hfiles : (p.files ++ [fid]).eraseIdx ((p.files ++ [fid]).indexOf fid) = p.files := by
      rw [List.eraseIdx_indexOf_eq_erase, List.erase_append_right _ hfid_files,
        List.erase_cons_head]
      simp
    simp [removeFileById, hmem, specDeleteAndRemoveById, hfind, hrecs, hperm, hfiles]

theorem C5_addFile_remove_roundTrip_witness :
    addFile (specCreateAndMove 3 "b") ⟨[7]⟩ ⟨[⟨7, "a"⟩], ["a"]⟩ =
      .ok ({ status := .success, modelId := some 3, message := none },
           ⟨[7] ++ [3]⟩, ⟨[⟨7, "a"⟩] ++ [⟨3, "b"⟩], ["a"] ++ ["b"]⟩) ∧
    removeFileById specDeleteAndRemoveById ⟨[7] ++ [3]⟩
        ⟨[⟨7, "a"⟩] ++ [⟨3, "b"⟩], ["a"] ++ ["b"]⟩ 3 =
      .ok ({ status := .success, message := none }, ⟨[7]⟩, ⟨[⟨7, "a"⟩], ["a"]⟩) ∧
    "b" ∉ (⟨[⟨7, "a"⟩], ["a"]⟩ : Store).perm :=
  C5_addFile_remove_roundTrip ⟨[7]⟩ ⟨[⟨7, "a"⟩], ["a"]⟩ 3 "b" (by decide)
    (by
      intro r hr
      simp only [List.mem_singleton] at hr
      rw [hr]
      decide)
    (by simp)

end FileLifecycle
